import Mathlib

/-!
Verification development for the `bagins` BagIt library.

The Go sources are shallowly embedded: pure data (manifests, tag files,
bags) becomes Lean structures, the filesystem becomes an explicit map from
paths to file contents, and every fallible I/O primitive is abstracted by a
boolean/optional oracle passed to the operation that performs it.  Hashing
is abstracted by an explicit function argument `hash : algorithm → content
→ digest`, so theorems hold for every hash function.

Two historical versions of `bag.go` are present in the repository; the
current one lives in namespace `Bagins`, the older one (the file defining
`TrackedFiles`/`Orphans`) in namespace `BaginsV0`.
-/

namespace Bagins

/-- Model of `filepath.Join` for the joins performed by this library
(no trailing slashes, non-empty components). -/
def pjoin (a b : String) : String := a ++ "/" ++ b

/-- Model of Go's `strings.HasPrefix(s, p)` by character lists
(byte-identical to the byte-level test on the paths used here). -/
def hasPrefixStr (p s : String) : Bool := p.data.isPrefixOf s.data

/-- Split a character list at `/` separators. -/
def splitSlash : List Char → List (List Char)
  | [] => [[]]
  | c :: cs =>
    match splitSlash cs with
    | [] => [[]]
    | h :: t => if c = '/' then [] :: h :: t else (c :: h) :: t

/-- The `/`-separated components of a path. -/
def pathParts (p : String) : List String := (splitSlash p.data).map String.mk

/-- Model of Go's `strings.ToLower` for the ASCII algorithm names used
here. -/
def strToLower (s : String) : String := String.mk (s.data.map Char.toLower)

/-- Model of `filepath.Dir` for slash-separated paths as used here. -/
def dirname (p : String) : String :=
  let parts := pathParts p
  if parts.length ≤ 1 then "." else
    let d := String.intercalate "/" parts.dropLast
    if d = "" then "/" else d

/-- The filesystem: file contents by absolute path. -/
def FS : Type := String → Option String

/-- Writing a file: the path now maps to the new content. -/
def fsUpdate (fs : FS) (k v : String) : FS :=
  fun p => if p == k then some v else fs p

/-- A single field of a tag file (`NewTagField(label, value)`). -/
structure TagField where
  label : String
  value : String
  deriving DecidableEq, Repr

/-- A tag file: the (full) path handed to `NewTagFile` plus its field
data.  `TagFile.Name()` returns the stored path; `bag.go` passes
`filepath.Join(b.Path(), name)` to `NewTagFile` and then uses `tf.Name()`
to create directories and to read the file back for checksumming, so the
stored name is the file's on-disk path (the spec: the tag file resolves
"its absolute location"). -/
structure TagFile where
  name : String
  Data : List TagField
  deriving DecidableEq, Repr

/-- `PayloadManifest` manifest-type constant (`Manifest.Type()`). -/
def PayloadManifest : String := "manifest"

/-- `TagManifest` manifest-type constant (`Manifest.Type()`). -/
def TagManifest : String := "tagmanifest"

/-- A manifest: entry map (`Data`, Go map modelled as an association
list, key unique), its own file path (`filepath`), hash algorithm
(`algo`) and kind name (`name`, either `manifest` or `tagmanifest`). -/
structure Manifest where
  Data : List (String × String)
  filepath : String
  algo : String
  name : String
  deriving DecidableEq, Repr

/-- The payload: owns the `data` directory; `Payload.Name()` returns it. -/
structure Payload where
  name : String
  deriving DecidableEq, Repr

/-- The bag of the current `bag.go`: root path, payload, manifest list and
tracked tag files (Go map keyed by bag-relative path, modelled as an
association list in some iteration order). -/
structure Bag where
  pathToFile : String
  payload : Payload
  Manifests : List Manifest
  tagfiles : List (String × TagFile)
  deriving DecidableEq, Repr

/-- Go map assignment `m[k] = v`: overwrite the key if present, append
otherwise. -/
def setEntry (l : List (String × String)) (k v : String) : List (String × String) :=
  if l.any (fun kv => kv.1 == k) then
    l.map (fun kv => if kv.1 == k then (k, v) else kv)
  else l ++ [(k, v)]

/-- Key membership in a Go map modelled as an association list. -/
def hasKey (l : List (String × String)) (k : String) : Bool :=
  l.any (fun kv => kv.1 == k)

/-- Association list lookup (Go `m[k]` read / `m[k], ok`). -/
def lookupKey (l : List (String × TagFile)) (k : String) : Option TagFile :=
  (l.find? (fun kv => kv.1 == k)).map (fun kv => kv.2)

/-- Modelled from the spec: the serialized content of a tag file
(`TagFile.Create`, source file not among the provided sources), one
`<field-name>:<space><value>` line per field. -/
def tagFileContent (tf : TagFile) : String :=
  String.join (tf.Data.map (fun f => f.label ++ ": " ++ f.value ++ "\n"))

/-- Insertion into a key-sorted entry list (for deterministic manifest
serialization, per the spec). -/
def insertByKey (kv : String × String) : List (String × String) → List (String × String)
  | [] => [kv]
  | h :: t => if kv.1 < h.1 then kv :: h :: t else h :: insertByKey kv t

/-- Sort manifest entries by path. -/
def sortByKey : List (String × String) → List (String × String)
  | [] => []
  | h :: t => insertByKey h (sortByKey t)

/-- Modelled from the spec: `Manifest.Create` body (source file truncated
before the method), one `<digest> <path>` line per entry, ordered by path. -/
def serializeManifest (m : Manifest) : String :=
  String.join ((sortByKey m.Data).map (fun kv => kv.2 ++ " " ++ kv.1 ++ "\n"))

/-- Modelled from the spec: `bagutil.FileChecksum(path, hash)` reads the
file at `path` and returns its digest under `hash`; it fails when the file
cannot be opened. -/
def FileChecksum (fs : FS) (hash : String → String → String) (path algo : String) :
    Option String :=
  (fs path).map (hash algo)

/-- Observable I/O events of a `Save` run, in program order. -/
inductive Event where
  | writeTag (path : String)
  | checksum (path : String) (algo : String)
  | writeManifest (path : String)
  deriving DecidableEq, Repr

/-- Is a manifest of tag kind (`m.Type() == TagManifest`)? -/
def isTagM (m : Manifest) : Bool := m.name == TagManifest

/-- `Bag.GetManifests`: the manifests of the given type, in order. -/
def Bag.GetManifests (b : Bag) (manifestType : String) : List Manifest :=
  b.Manifests.filter (fun m => m.name == manifestType)

/-- `Bag.GetManifest`: the first manifest with the given type and
algorithm, if any. -/
def Bag.GetManifest (b : Bag) (manifestType algorithm : String) : Option Manifest :=
  b.Manifests.find? (fun m => m.name == manifestType && m.algo == algorithm)

/-- Error message of the checksum failure branch of `Bag.Save`. -/
def checksumErrMsg (algo n : String) : String :=
  "Error calculating " ++ algo ++ " checksum for file " ++ n

/-- Error message for a failed `os.MkdirAll` during `Bag.Save`. -/
def mkdirErrMsg (n : String) : String := "mkdir error for " ++ n

/-- Error message for a failed `tf.Create()` during `Bag.Save`. -/
def createErrMsg (n : String) : String := "create error for " ++ n

/-- Error message for a failed `manifest.Create()` during `Bag.Save`. -/
def mCreateErrMsg (p : String) : String := "manifest create error for " ++ p

/-- The inner loop of `Bag.Save` (bag.go:395-406): for the freshly
written tag file named `n`, compute its checksum under every tag
manifest's algorithm and record it in that manifest under key `n`
(`manifest.Data[tf.Name()] = checksum`).  Go iterates the filtered slice
`b.GetManifests(TagManifest)` whose elements are pointers into
`b.Manifests`; the model walks the full list and updates the tag-kind
elements in place, which records the same checksums in the same order.
On a checksum failure Go returns a fresh single-element error list
immediately, leaving the remaining manifests untouched. -/
def addTagChecksums (fs : FS) (hash : String → String → String) (n : String) :
    List Manifest → List Manifest × List Event × Option String
  | [] => ([], [], none)
  | m :: rest =>
    if isTagM m then
      match FileChecksum fs hash n m.algo with
      | none => (m :: rest, [Event.checksum n m.algo], some (checksumErrMsg m.algo n))
      | some c =>
        let r := addTagChecksums fs hash n rest
        ({ m with Data := setEntry m.Data n c } :: r.1, Event.checksum n m.algo :: r.2.1, r.2.2)
    else
      let r := addTagChecksums fs hash n rest
      (m :: r.1, r.2.1, r.2.2)

/-- Result of the tag-file phase of `Bag.Save`. -/
structure TagPhase where
  fs : FS
  ms : List Manifest
  errs : List String
  trace : List Event
  aborted : Bool

/-- The tag-file loop of `Bag.Save` (bag.go:386-407): for each tracked
tag file, ensure its parent directory exists and write it
(`os.MkdirAll` / `tf.Create()`, failures appended to the error list), then
immediately record its checksums in every tag manifest; a checksum
failure aborts the whole `Save` with a fresh single-element error list. -/
def saveTags (hash : String → String → String) (mkdirOk createOk : String → Bool) :
    List (String × TagFile) → FS → List Manifest → List String → List Event → TagPhase
  | [], fs, ms, errs, tr => ⟨fs, ms, errs, tr, false⟩
  | kv :: rest, fs, ms, errs, tr =>
    let tf := kv.2
    let errs1 := if mkdirOk (dirname tf.name) then errs else errs ++ [mkdirErrMsg tf.name]
    let fs1 := if createOk tf.name then fsUpdate fs tf.name (tagFileContent tf) else fs
    let errs2 := if createOk tf.name then errs1 else errs1 ++ [createErrMsg tf.name]
    let tr1 := tr ++ [Event.writeTag tf.name]
    let r := addTagChecksums fs1 hash tf.name ms
    match r.2.2 with
    | some e => ⟨fs1, r.1, [e], tr1 ++ r.2.1, true⟩
    | none => saveTags hash mkdirOk createOk rest fs1 r.1 errs2 (tr1 ++ r.2.1)

/-- Result of the manifest-writing phase of `Bag.Save`. -/
structure WritePhase where
  fs : FS
  errs : List String
  trace : List Event

/-- The manifest-writing loop of `Bag.Save` (bag.go:410-415): write every
manifest (payload and tag), collecting each failure. -/
def writeManifests (mCreateOk : String → Bool) :
    List Manifest → FS → List String → List Event → WritePhase
  | [], fs, errs, tr => ⟨fs, errs, tr⟩
  | m :: rest, fs, errs, tr =>
    let fs1 := if mCreateOk m.filepath then fsUpdate fs m.filepath (serializeManifest m) else fs
    let errs1 := if mCreateOk m.filepath then errs else errs ++ [mCreateErrMsg m.filepath]
    writeManifests mCreateOk rest fs1 errs1 (tr ++ [Event.writeManifest m.filepath])

/-- Result of a `Bag.Save` run: the final filesystem, the bag's manifests
after the run, the returned error list, the I/O event trace, and whether
the early `return errors` in the checksum branch was taken. -/
structure SaveResult where
  fs : FS
  Manifests : List Manifest
  errs : List String
  trace : List Event
  aborted : Bool

/-- `Bag.Save` (bag.go:383-417): write each tracked tag file and record
its checksums in the tag manifests, then write every manifest.
I/O failures are injected through the `mkdirOk`/`createOk`/`mCreateOk`
oracles; `hash` is the digest function and `fs` the filesystem. -/
def Bag.Save (hash : String → String → String) (mkdirOk createOk mCreateOk : String → Bool)
    (fs : FS) (b : Bag) : SaveResult :=
  let t := saveTags hash mkdirOk createOk b.tagfiles fs b.Manifests [] []
  if t.aborted then ⟨t.fs, t.ms, t.errs, t.trace, true⟩
  else
    let w := writeManifests mCreateOk t.ms t.fs t.errs t.trace
    ⟨w.fs, t.ms, w.errs, w.trace, false⟩

/-- Model of `filepath.Rel(base, p)` for the walks performed here: the
walk only yields the root itself or paths strictly below it, for which
`Rel` returns the suffix without error.  The pair's second component is
the error flag; on error Go returns the empty string as the path. -/
def relPath (base p : String) : String × Bool :=
  if p == base then (".", false)
  else if hasPrefixStr (base ++ "/") p then (String.mk (p.data.drop (base.length + 1)), false)
  else ("", true)

/-- The `visit` closure of `Bag.ListFiles` folded over the walk's entries
(`(path, isDirectory)` in walk order): an entry is collected unless it is
a directory lying under the payload directory or it is the root `"."`
itself; a `Rel` error aborts the walk. -/
def visitFold (root payloadName : String) :
    List (String × Bool) → List String → Except String (List String)
  | [], acc => .ok acc
  | e :: rest, acc =>
    let isPayload := hasPrefixStr payloadName e.1
    if !e.2 || !isPayload then
      let r := relPath root e.1
      if r.2 then .error "rel error"
      else if r.1 ≠ "." then visitFold root payloadName rest (acc ++ [r.1])
      else visitFold root payloadName rest acc
    else visitFold root payloadName rest acc

/-- `Bag.ListFiles` (bag.go:424-452, identical in both versions of the
file): walk the bag root collecting root-relative paths; `entries` is the
walk's visit sequence and `walkFail` injects a failure of the walk
itself. -/
def ListFiles (root payloadName : String) (entries : List (String × Bool))
    (walkFail : Bool) : Except String (List String) :=
  if walkFail then .error "walk error"
  else visitFold root payloadName entries []

/-- The `bagFiles, _ := b.ListFiles()` read in `findManifests`: the error
is discarded, leaving a nil slice. -/
def bagFilesFor (root payloadName : String) (entries : List (String × Bool))
    (walkFail : Bool) : List String :=
  match ListFiles root payloadName entries walkFail with
  | .error _ => []
  | .ok l => l

/-- The manifest-discovery test of `findManifests` (bag.go:236-240):
the joined path must start with `<root>/manifest-` or
`<root>/tagmanifest-`. -/
def manifestNameMatch (root f : String) : Bool :=
  hasPrefixStr (pjoin root "manifest-") (pjoin root f)
    || hasPrefixStr (pjoin root "tagmanifest-") (pjoin root f)

/-- The file loop of `Bag.findManifests` (bag.go:233-247): parse each
discovered manifest file (`readManifest` is the `ReadManifest` parser,
abstracted since `manifest.go` is truncated before it), returning the
first parse failure's error list unchanged. -/
def findManifestsLoop (root : String) (readManifest : String → Except (List String) Manifest) :
    List String → List Manifest → Except (List String) (List Manifest)
  | [], acc => .ok acc
  | f :: rest, acc =>
    if manifestNameMatch root f then
      match readManifest (pjoin root f) with
      | .error es => .error es
      | .ok m => findManifestsLoop root readManifest rest (acc ++ [m])
    else findManifestsLoop root readManifest rest acc

/-- `Bag.findManifests` (bag.go:227-250): list the bag's files (walk
errors discarded) and parse every file whose name matches the manifest
prefix convention; only runs when the bag has no manifests yet. -/
def findManifests (root payloadName : String) (entries : List (String × Bool))
    (walkFail : Bool) (readManifest : String → Except (List String) Manifest)
    (initial : List Manifest) : Except (List String) (List Manifest) :=
  if initial.length == 0 then
    findManifestsLoop root readManifest (bagFilesFor root payloadName entries walkFail) initial
  else .ok initial

/-- The error-message accumulation of `ReadBag` (bag.go:166-169):
`fmt.Sprintf("%s; %s", message, e)` over the list, starting empty. -/
def joinSemis (es : List String) : String :=
  es.foldl (fun acc e => acc ++ "; " ++ e) ""

/-- The re-parse loop of `ReadBag` (bag.go:176-195): for each discovered
manifest, re-derive its path (re-rooting it when its directory is not the
bag root), require it to exist on disk, and re-parse it, failing fast. -/
def reparseManifests (root : String) (readManifest : String → Except (List String) Manifest)
    (fileExists : String → Bool) : List Manifest → Except String (List Manifest)
  | [] => .ok []
  | m :: rest =>
    let mp := if dirname m.filepath == root then m.filepath else pjoin root m.filepath
    if !(fileExists mp) then .error ("Can't find manifest: " ++ mp)
    else
      match readManifest mp with
      | .error es => .error ("Unable to parse manifest " ++ mp ++ ":" ++ joinSemis es)
      | .ok pm =>
        match reparseManifests root readManifest fileExists rest with
        | .error e => .error e
        | .ok pms => .ok (pm :: pms)

/-- The tag-file loop of `ReadBag` (bag.go:211-220): parse each named tag
file, keeping the parsed ones and silently skipping failures (the
`bagmaker` stderr warning is logging, not modelled). -/
def readTagFilesLoop (root : String) (readTagFile : String → Option TagFile) :
    List String → List (String × TagFile)
  | [] => []
  | n :: rest =>
    match readTagFile (pjoin root n) with
    | some tf => (n, tf) :: readTagFilesLoop root readTagFile rest
    | none => readTagFilesLoop root readTagFile rest

/-- `ReadBag` (bag.go:142-223): validate the root directory and payload
directory, discover and parse the manifests, fail with
`"Unable to parse a manifest"` when none were discovered, re-parse each
discovered manifest from disk, then parse the named tag files.
`isDir`/`dataDirOk` inject the `os.Stat`/`NewPayload` outcomes,
`fileExists` the per-manifest `os.Stat`, and `readManifest`/`readTagFile`
the parsers whose sources are not in the provided files. -/
def ReadBag (root : String) (isDir dataDirOk : Bool) (entries : List (String × Bool))
    (walkFail : Bool) (readManifest : String → Except (List String) Manifest)
    (fileExists : String → Bool) (tagfileNames : List String)
    (readTagFile : String → Option TagFile) : Except String Bag :=
  if !isDir then .error (root ++ " is not a directory.")
  else if !dataDirOk then .error ("payload directory error: " ++ pjoin root "data")
  else
    let payloadName := pjoin root "data"
    match findManifests root payloadName entries walkFail readManifest [] with
    | .error es => .error (joinSemis es)
    | .ok ms =>
      if ms.length == 0 then .error "Unable to parse a manifest"
      else
        match reparseManifests root readManifest fileExists ms with
        | .error e => .error e
        | .ok pms =>
          .ok { pathToFile := root, payload := ⟨payloadName⟩, Manifests := pms,
                tagfiles := readTagFilesLoop root readTagFile tagfileNames }

/-- The hash algorithms supported by the registry (bag.go doc comment /
spec's HashRegistry). -/
def supportedHashes : List String := ["md5", "sha1", "sha256", "sha512", "sha224", "sha384"]

/-- Modelled from the spec: `NewManifest(pathToFile, hashName)`
(`manifest.go` is truncated before it).  It fails for an unsupported
algorithm; the manifest's own file is `manifest-<algo>.txt` under the
given directory for the payload kind, and the given file itself when the
caller passes a `tagmanifest-`/`manifest-` filename (as `NewBag` does for
tag manifests). -/
def NewManifest (pathToFile hashName : String) : Option Manifest :=
  if supportedHashes.contains hashName then
    let base := (pathParts pathToFile).getLastD pathToFile
    if hasPrefixStr "tagmanifest-" base then
      some ⟨[], pathToFile, hashName, TagManifest⟩
    else if hasPrefixStr "manifest-" base then
      some ⟨[], pathToFile, hashName, PayloadManifest⟩
    else some ⟨[], pjoin pathToFile ("manifest-" ++ hashName ++ ".txt"), hashName, PayloadManifest⟩
  else none

/-- The manifest-initialization loop of `NewBag` (bag.go:72-89): for each
requested hash name (lowercased), a payload manifest and, when requested,
a tag manifest named `tagmanifest-<algo>.txt`. -/
def buildManifests (root : String) : List String → Bool → Option (List Manifest)
  | [], _ => some []
  | h :: t, createTagManifests =>
    let lc := strToLower h
    match NewManifest root lc with
    | none => none
    | some m =>
      if createTagManifests then
        match NewManifest (pjoin root ("tagmanifest-" ++ lc ++ ".txt")) lc with
        | none => none
        | some tm => (buildManifests root t createTagManifests).map (fun rest => m :: tm :: rest)
      else (buildManifests root t createTagManifests).map (fun rest => m :: rest)

/-- The two fields `createBagItFile` adds (bag.go:132-133). -/
def bagitFields : List TagField :=
  [⟨"BagIt-Version", "0.97"⟩, ⟨"Tag-File-Character-Encoding", "UTF-8"⟩]

/-- `Bag.createBagItFile` (bag.go:124-136) after a successful
`AddTagfile("bagit.txt")`: the registered tag file with the two fields
appended by `AddField` (append semantics modelled from the spec's
field-list description; the tag-file source is not among the provided
files). -/
def createBagItFile (root : String) : TagFile :=
  { name := pjoin root "bagit.txt", Data := [] ++ bagitFields }

/-- `NewBag` (bag.go:55-120) up to and including the final `Save`:
directory creations and the `bagit.txt` write are injected through the
oracles, every early error aborts, and the result pairs the constructed
bag (whose manifests carry the checksums `Save` recorded) with the full
`Save` result. -/
def newBagCore (hash : String → String → String) (mkdirOk createOk mCreateOk : String → Bool)
    (fs : FS) (location name : String) (hashNames : List String)
    (createTagManifests : Bool) (mkdirBagOk mkdirDataOk : Bool) :
    Except String (Bag × SaveResult) :=
  let root := pjoin location name
  if !mkdirBagOk then .error ("mkdir " ++ root ++ ": file exists")
  else
    match buildManifests root hashNames createTagManifests with
    | none => .error "unsupported hash name"
    | some ms =>
      if !mkdirDataOk then .error ("mkdir " ++ pjoin root "data" ++ ": error")
      else
        let bagitPath := pjoin root "bagit.txt"
        if !(mkdirOk (dirname bagitPath)) then .error (mkdirErrMsg bagitPath)
        else if !(createOk bagitPath) then .error (createErrMsg bagitPath)
        else
          let fs1 := fsUpdate fs bagitPath ""
          let bag0 : Bag := { pathToFile := root, payload := ⟨pjoin root "data"⟩,
                              Manifests := ms,
                              tagfiles := [("bagit.txt", createBagItFile root)] }
          let sr := Bag.Save hash mkdirOk createOk mCreateOk fs1 bag0
          .ok ({ bag0 with Manifests := sr.Manifests }, sr)

/-- The error-message accumulation of `NewBag` (bag.go:112-115):
`fmt.Sprintf("%s, %s", message, e)` over the list, starting empty. -/
def joinCommas (es : List String) : String :=
  es.foldl (fun acc e => acc ++ ", " ++ e) ""

/-- `NewBag` (bag.go:55-120): after the steps of `newBagCore`, the final
check (bag.go:110-117) is `if err != nil && len(errors) > 0`, where `err`
still holds the `createBagItFile` error, which is necessarily `nil` on
this path (a non-nil value returned at bag.go:106); the condition is
modelled literally with that `none`. -/
def NewBag (hash : String → String → String) (mkdirOk createOk mCreateOk : String → Bool)
    (fs : FS) (location name : String) (hashNames : List String)
    (createTagManifests : Bool) (mkdirBagOk mkdirDataOk : Bool) : Except String Bag :=
  match newBagCore hash mkdirOk createOk mCreateOk fs location name hashNames
      createTagManifests mkdirBagOk mkdirDataOk with
  | .error e => .error e
  | .ok p =>
    if (none : Option String).isSome && p.2.errs.length > 0 then .error (joinCommas p.2.errs)
    else .ok p.1

end Bagins

namespace BaginsV0

open Bagins

/-- The bag of the older version of `bag.go` in the repository
(`src/unnamed/part_000`): a single payload manifest. -/
structure OldBag where
  pth : String
  payload : Payload
  manifest : Manifest
  tagfiles : List (String × TagFile)
  deriving DecidableEq, Repr

/-- `Bag.TrackedFiles` (part_000:262-274): the tag-file names, plus —
only when `filepath.Rel` on the manifest's own path FAILS (`err != nil`)
— the (then empty) relative manifest path. -/
def TrackedFiles (b : OldBag) : List String :=
  let files := b.tagfiles.map (fun kv => kv.1)
  let r := relPath b.pth b.manifest.filepath
  if r.2 then files ++ [r.1] else files

/-- `Bag.Orphans` (part_000:298-316): the files `ListFiles` reports that
`TrackedFiles` does not account for; the `ListFiles` error is discarded
(`files, _ := b.ListFiles()`), leaving a nil file list. -/
def Orphans (b : OldBag) (entries : List (String × Bool)) (walkFail : Bool) : List String :=
  let tracked := TrackedFiles b
  let files :=
    match ListFiles b.pth b.payload.name entries walkFail with
    | .error _ => []
    | .ok l => l
  files.filter (fun f => !(tracked.contains f))

end BaginsV0

namespace Bagins

/-- Phase rank of a `Save` event: tag-file writes, then checksums, then
manifest writes. -/
def phaseRank : Event → Nat
  | .writeTag _ => 0
  | .checksum _ _ => 1
  | .writeManifest _ => 2

/-- A trace proceeds in strict whole-bag phases when its phase ranks are
monotone: all tag-file writes, then all checksums, then all manifest
writes. -/
def phaseSeparated : List Event → Bool
  | [] => true
  | [_] => true
  | a :: b :: t => Nat.ble (phaseRank a) (phaseRank b) && phaseSeparated (b :: t)

/-- A concrete injective-on-distinct-content stand-in digest function for
evaluating the model (theorems quantified over `hash` hold for real
hashes as well). -/
def dHash : String → String → String := fun a c => a ++ "|" ++ c

/-- Oracle under which every I/O operation succeeds. -/
def allOk : String → Bool := fun _ => true

/-- The empty filesystem. -/
def emptyFS : FS := fun _ => none

/-- A bag at root `r` with one payload and one tag manifest and two
registered tag files. -/
def exBagTwoTags : Bag :=
  ⟨"r", ⟨"r/data"⟩,
   [⟨[], "r/manifest-md5.txt", "md5", "manifest"⟩,
    ⟨[], "r/tagmanifest-md5.txt", "md5", "tagmanifest"⟩],
   [("a.txt", ⟨"r/a.txt", []⟩), ("b.txt", ⟨"r/b.txt", []⟩)]⟩

/-- A bag at root `r` with one tag manifest and two tag files `t1`, `t2`. -/
def exBagAbort : Bag :=
  ⟨"r", ⟨"r/data"⟩, [⟨[], "r/tagmanifest-md5.txt", "md5", "tagmanifest"⟩],
   [("t1", ⟨"r/t1", []⟩), ("t2", ⟨"r/t2", []⟩)]⟩

/-- Write oracle that fails exactly on `r/t1`. -/
def createNoT1 : String → Bool := fun s => !(s == "r/t1")

/-- Walk of a bag directory holding `data/` and only
`tagmanifest-sha1.txt` (no payload-kind manifest). -/
def exEntries4 : List (String × Bool) :=
  [("b", true), ("b/data", true), ("b/tagmanifest-sha1.txt", false)]

/-- Manifest parser oracle for `exEntries4`: the tag manifest parses. -/
def exRM4 : String → Except (List String) Manifest := fun p =>
  if p == "b/tagmanifest-sha1.txt" then .ok ⟨[], "b/tagmanifest-sha1.txt", "sha1", "tagmanifest"⟩
  else .error ["unexpected"]

/-- Walk of a bag directory with no manifest-named file at all. -/
def exEntries4w : List (String × Bool) :=
  [("b", true), ("b/data", true), ("b/x.txt", false)]

/-- Walk of a bag directory holding two payload manifests. -/
def exEntries5 : List (String × Bool) :=
  [("b", true), ("b/data", true), ("b/manifest-md5.txt", false), ("b/manifest-sha1.txt", false)]

/-- Manifest parser oracle for `exEntries5`: both manifests are
malformed, with distinct parse errors. -/
def exRM5 : String → Except (List String) Manifest := fun p =>
  if p == "b/manifest-md5.txt" then .error ["bad-md5"]
  else if p == "b/manifest-sha1.txt" then .error ["bad-sha1"]
  else .error ["unexpected"]

/-- Walk of a bag at root `b` with a tag file, a payload file
`data/a.txt` and a payload manifest. -/
def exEntries6 : List (String × Bool) :=
  [("b", true), ("b/bagit.txt", false), ("b/data", true), ("b/data/a.txt", false),
   ("b/manifest-md5.txt", false)]

/-- An old-version bag at root `b` whose manifest is
`b/manifest-md5.txt` and which tracks `bagit.txt`. -/
def exOldBag : BaginsV0.OldBag :=
  ⟨"b", ⟨"b/data"⟩, ⟨[], "b/manifest-md5.txt", "md5", "manifest"⟩,
   [("bagit.txt", ⟨"b/bagit.txt", []⟩)]⟩

/-- Witness bag: the value `newBagCore` produces for
`NewBag("loc", "bag1", ["md5"], true)` with all I/O succeeding. -/
def exNewBagResult : Bag :=
  ⟨"loc/bag1", ⟨"loc/bag1/data"⟩,
   [⟨[], "loc/bag1/manifest-md5.txt", "md5", "manifest"⟩,
    ⟨[("loc/bag1/bagit.txt", "md5|BagIt-Version: 0.97\nTag-File-Character-Encoding: UTF-8\n")],
     "loc/bag1/tagmanifest-md5.txt", "md5", "tagmanifest"⟩],
   [("bagit.txt", ⟨"loc/bag1/bagit.txt",
     [⟨"BagIt-Version", "0.97"⟩, ⟨"Tag-File-Character-Encoding", "UTF-8"⟩]⟩)]⟩

/-- The algorithms of the tag-kind manifests, in manifest order. -/
def tagAlgos (ms : List Manifest) : List String :=
  (ms.filter isTagM).map (fun m => m.algo)

/-- The effect of one checksum-recording pass on one manifest: a
tag-kind manifest gains (or overwrites) the entry for path `n` with the
digest of content `c` under its own algorithm; other manifests are
untouched. -/
def updEntry (hash : String → String → String) (n c : String) (m : Manifest) : Manifest :=
  if isTagM m then { m with Data := setEntry m.Data n (hash m.algo c) } else m

/-- The effect on one manifest of saving one tag file: its freshly
written content is checksummed under the manifest's algorithm. -/
def updFile (hash : String → String → String) (tf : TagFile) : Manifest → Manifest :=
  updEntry hash tf.name (tagFileContent tf)

/-- The cumulative effect of a whole `Save` tag-file loop on one
manifest. -/
def saveUpds (hash : String → String → String) (tfs : List (String × TagFile))
    (m : Manifest) : Manifest :=
  tfs.foldl (fun m kv => updFile hash kv.2 m) m

deriving instance DecidableEq for Except

/-- C1, counterexample: on a bag with two tracked tag files and a tag
manifest, the `Save` trace is not split into whole-bag phases — the first
tag file's checksum is computed before the second tag file is written, so
the write phase and the checksum phase are interleaved per file. -/
theorem save_trace_not_phase_separated :
    phaseSeparated (Bag.Save dHash allOk allOk allOk emptyFS exBagTwoTags).trace = false := by
  decide

/-- C3, counterexample: when computing the first tag file's checksum
fails (its write failed and the file is absent), `Save` returns at once
with only that error: the second tag file is never written, no manifest
is written, and the earlier write error is dropped from the returned
list. -/
theorem save_checksum_failure_aborts :
    (Bag.Save dHash allOk createNoT1 allOk emptyFS exBagAbort).errs
        = [checksumErrMsg "md5" "r/t1"] ∧
      Event.writeTag "r/t2" ∉ (Bag.Save dHash allOk createNoT1 allOk emptyFS exBagAbort).trace ∧
      Event.writeManifest "r/tagmanifest-md5.txt"
          ∉ (Bag.Save dHash allOk createNoT1 allOk emptyFS exBagAbort).trace := by
  refine ⟨by decide, by decide, by decide⟩

/-- C2: creating a fresh bag (`NewBag("loc", "bag1", ["md5"], true)`)
and saving it records the `bagit.txt` checksum in the tag manifest under
the key `loc/bag1/bagit.txt` — the full path handed to `NewTagFile` —
and not under the bag-root-relative key `bagit.txt`. -/
theorem newBag_tagmanifest_key_is_full_path :
    ((newBagCore dHash allOk allOk allOk emptyFS "loc" "bag1" ["md5"] true true true).toOption.map
        (fun p => (p.1.Manifests.filter isTagM).map (fun m => m.Data)))
      = some [[("loc/bag1/bagit.txt",
                dHash "md5" (tagFileContent (createBagItFile "loc/bag1")))]] ∧
    ((newBagCore dHash allOk allOk allOk emptyFS "loc" "bag1" ["md5"] true true true).toOption.map
        (fun p => (p.1.Manifests.filter isTagM).map (fun m => hasKey m.Data "bagit.txt")))
      = some [false] := by
  refine ⟨by decide, by decide⟩

/-- C6: `ListFiles` on a bag whose payload holds `data/a.txt` returns
that payload file (the walk only skips payload *directories*), and the
payload file consequently shows up in `Orphans`. -/
theorem listFiles_returns_payload_files :
    ListFiles "b" "b/data" exEntries6 false = .ok ["bagit.txt", "data/a.txt", "manifest-md5.txt"] ∧
      "data/a.txt" ∈ BaginsV0.Orphans exOldBag exEntries6 false := by
  refine ⟨by decide, by decide⟩

/-- C7: `TrackedFiles` on a bag whose manifest lives at
`b/manifest-md5.txt` returns only the tag-file names; the manifest's own
name is missing because the `err != nil` test after `filepath.Rel`
appends the manifest path exactly when `Rel` fails. -/
theorem trackedFiles_misses_manifest_name :
    BaginsV0.TrackedFiles exOldBag = ["bagit.txt"] ∧
      "manifest-md5.txt" ∉ BaginsV0.TrackedFiles exOldBag := by
  refine ⟨by decide, by decide⟩

/-- C8: when every manifest write fails, the final `Save` inside
`NewBag` returns two errors, yet `NewBag` still returns the bag with a
nil error — the `err != nil && len(errors) > 0` test at bag.go:111 reads
the stale (necessarily nil) `err`, so the save errors are dropped. -/
theorem newBag_returns_ok_despite_save_errors :
    ((newBagCore dHash allOk allOk (fun _ => false) emptyFS "loc" "bag1" ["md5"] true true true).toOption.map
        (fun p => p.2.errs.length)) = some 2 ∧
    ((NewBag dHash allOk allOk (fun _ => false) emptyFS "loc" "bag1" ["md5"] true true true).toOption.map
        (fun b => b.pathToFile)) = some "loc/bag1" := by
  refine ⟨by decide, by decide⟩

/-- C4, counterexample: `ReadBag` on a directory holding `data/` and only
`tagmanifest-sha1.txt` (no `manifest-<algo>.txt`) does not fail with
`NoManifestFound` — it succeeds, because the discovery prefix test also
matches `tagmanifest-` names. -/
theorem readBag_tagmanifest_only_succeeds :
    (ReadBag "b" true true exEntries4 false exRM4 (fun _ => true) [] (fun _ => none)).toOption
      = some ⟨"b", ⟨"b/data"⟩, [⟨[], "b/tagmanifest-sha1.txt", "sha1", "tagmanifest"⟩], []⟩ := by
  decide

/-- C5, counterexample: with two malformed manifests in the directory,
manifest discovery returns only the first file's parse errors — the
second malformed manifest's error `bad-sha1` is produced by the parser
but absent from the result, so errors are not aggregated across files. -/
theorem findManifests_reports_only_first_error :
    findManifests "b" "b/data" exEntries5 false exRM5 [] = .error ["bad-md5"] ∧
      exRM5 "b/manifest-sha1.txt" = .error ["bad-sha1"] ∧
      "bad-sha1" ∉ (["bad-md5"] : List String) := by
  refine ⟨by decide, by decide, by decide⟩

/-- C10: when the walk underlying `ListFiles` fails, `Orphans` still
returns normally: the error is discarded, the file list is treated as
empty, and no orphans (and no error) are reported, for every bag. -/
theorem orphans_empty_on_walk_failure (b : BaginsV0.OldBag) (entries : List (String × Bool)) :
    BaginsV0.Orphans b entries true = [] := by
  simp [BaginsV0.Orphans, ListFiles]

/-- A discovery pass over files none of which has a manifest-like name
parses nothing. -/
theorem findManifestsLoop_no_match (root : String)
    (rm : String → Except (List String) Manifest) :
    ∀ (fl : List String) (acc : List Manifest),
      (∀ f ∈ fl, manifestNameMatch root f = false) →
      findManifestsLoop root rm fl acc = .ok acc := by
  intro fl
  induction fl with
  | nil => intro acc _; rfl
  | cons f t ih =>
    intro acc h
    have hf : manifestNameMatch root f = false := h f (by simp)
    simp only [findManifestsLoop, hf, Bool.false_eq_true, if_false]
    exact ih acc (fun g hg => h g (by simp [hg]))

/-- C4 (amended): `ReadBag` reports the no-manifest error (`"Unable to
parse a manifest"`) exactly when the directory listing has no file whose
joined path starts with `manifest-` or `tagmanifest-`; a lone
`tagmanifest-<algo>.txt` is discovered by that test, so it prevents the
error. -/
theorem readBag_no_manifest_error_iff_no_manifest_names
    (root : String) (entries : List (String × Bool)) (walkFail : Bool)
    (rm : String → Except (List String) Manifest) (fe : String → Bool)
    (tns : List String) (rt : String → Option TagFile)
    (h : ∀ f ∈ bagFilesFor root (pjoin root "data") entries walkFail,
        manifestNameMatch root f = false) :
    ReadBag root true true entries walkFail rm fe tns rt
      = .error "Unable to parse a manifest" := by
  simp only [ReadBag, Bool.not_true, Bool.false_eq_true, if_false, findManifests]
  rw [if_pos (by rfl), findManifestsLoop_no_match root rm _ _ h]
  rfl

/-- Witness for `readBag_no_manifest_error_iff_no_manifest_names` at a
directory containing only `data/` and `x.txt`. -/
theorem readBag_no_manifest_error_witness :
    ReadBag "b" true true exEntries4w false exRM4 (fun _ => true) [] (fun _ => none)
      = .error "Unable to parse a manifest" :=
  readBag_no_manifest_error_iff_no_manifest_names "b" exEntries4w false exRM4
    (fun _ => true) [] (fun _ => none) (by decide)

/-- A failing discovery pass returns the parse errors of a single
discovered manifest file. -/
theorem findManifestsLoop_error_source (root : String)
    (rm : String → Except (List String) Manifest) :
    ∀ (fl : List String) (acc : List Manifest) (es : List String),
      findManifestsLoop root rm fl acc = .error es →
      ∃ f ∈ fl, manifestNameMatch root f = true ∧ rm (pjoin root f) = .error es := by
  intro fl
  induction fl with
  | nil => intro acc es h; simp [findManifestsLoop] at h
  | cons f t ih =>
    intro acc es h
    simp only [findManifestsLoop] at h
    by_cases hm : manifestNameMatch root f = true
    · rw [if_pos hm] at h
      cases hrm : rm (pjoin root f) with
      | error es2 =>
        rw [hrm] at h
        simp only [Except.error.injEq] at h
        exact ⟨f, by simp, hm, by rw [hrm, h]⟩
      | ok m =>
        rw [hrm] at h
        obtain ⟨g, hg, hgm, hge⟩ := ih _ _ h
        exact ⟨g, by simp [hg], hgm, hge⟩
    · rw [if_neg hm] at h
      obtain ⟨g, hg, hgm, hge⟩ := ih _ _ h
      exact ⟨g, by simp [hg], hgm, hge⟩

/-- C5 (amended): when manifest discovery fails, the reported error list
is exactly the parse-error list of one discovered manifest file (the
first malformed one); errors of further malformed manifests are not
aggregated. -/
theorem findManifests_error_from_single_file
    (root payloadName : String) (entries : List (String × Bool)) (walkFail : Bool)
    (rm : String → Except (List String) Manifest) (es : List String)
    (h : findManifests root payloadName entries walkFail rm [] = .error es) :
    ∃ f ∈ bagFilesFor root payloadName entries walkFail,
      manifestNameMatch root f = true ∧ rm (pjoin root f) = .error es := by
  simp only [findManifests, List.length_nil] at h
  rw [if_pos (by rfl)] at h
  exact findManifestsLoop_error_source root rm _ [] es h

/-- Witness for `findManifests_error_from_single_file` on the directory
with two malformed manifests. -/
theorem findManifests_error_from_single_file_witness :
    ∃ f ∈ bagFilesFor "b" "b/data" exEntries5 false,
      manifestNameMatch "b" f = true ∧ exRM5 (pjoin "b" f) = .error ["bad-md5"] :=
  findManifests_error_from_single_file "b" "b/data" exEntries5 false exRM5
    ["bad-md5"] (by decide)

/-- C9: whenever `NewBag` constructs a bag, the registered `bagit.txt`
tag file holds exactly the two fields `BagIt-Version: 0.97` and
`Tag-File-Character-Encoding: UTF-8`, in that order. -/
theorem newBag_bagit_exactly_two_fields
    (hash : String → String → String) (mkdirOk createOk mCreateOk : String → Bool)
    (fs : FS) (location nm : String) (hashNames : List String) (ctm mbOk mdOk : Bool)
    (b : Bag)
    (h : (newBagCore hash mkdirOk createOk mCreateOk fs location nm hashNames
        ctm mbOk mdOk).toOption.map Prod.fst = some b) :
    lookupKey b.tagfiles "bagit.txt"
      = some ⟨pjoin (pjoin location nm) "bagit.txt",
              [⟨"BagIt-Version", "0.97"⟩, ⟨"Tag-File-Character-Encoding", "UTF-8"⟩]⟩ := by
  simp only [newBagCore] at h
  split at h
  · simp [Except.toOption] at h
  · split at h
    · simp [Except.toOption] at h
    · split at h
      · simp [Except.toOption] at h
      · split at h
        · simp [Except.toOption] at h
        · split at h
          · simp [Except.toOption] at h
          · simp only [Except.toOption, Option.map] at h
            obtain rfl : _ = b := Option.some.inj h
            simp [lookupKey, createBagItFile, bagitFields, List.find?]

/-- Witness for `newBag_bagit_exactly_two_fields` at the concrete
creation `NewBag("loc", "bag1", ["md5"], true)`. -/
theorem newBag_bagit_exactly_two_fields_witness :
    lookupKey exNewBagResult.tagfiles "bagit.txt"
      = some ⟨pjoin (pjoin "loc" "bag1") "bagit.txt",
              [⟨"BagIt-Version", "0.97"⟩, ⟨"Tag-File-Character-Encoding", "UTF-8"⟩]⟩ :=
  newBag_bagit_exactly_two_fields dHash allOk allOk allOk emptyFS "loc" "bag1" ["md5"]
    true true true exNewBagResult (by decide)

theorem fsUpdate_self (fs : FS) (k v : String) : fsUpdate fs k v k = some v := by
  simp [fsUpdate]

/-- Overwriting the value at a key leaves the key set unchanged. -/
theorem any_key_map_overwrite (d : List (String × String)) (n v k : String) :
    (d.map (fun kv => if kv.1 == n then (n, v) else kv)).any (fun kv => kv.1 == k)
      = d.any (fun kv => kv.1 == k) := by
  induction d with
  | nil => rfl
  | cons kv t ih =>
    simp only [List.map_cons, List.any_cons, ih]
    by_cases h1 : kv.1 == n
    · have hn : kv.1 = n := by simpa using h1
      rw [if_pos h1, hn]
    · rw [if_neg h1]

/-- The keys after a Go map assignment `d[n] = v` are the old keys plus
`n`. -/
theorem hasKey_setEntry_iff (d : List (String × String)) (n v k : String) :
    hasKey (setEntry d n v) k = true ↔ (hasKey d k = true ∨ k = n) := by
  unfold setEntry hasKey
  by_cases hd : d.any (fun kv => kv.1 == n) = true
  · rw [if_pos hd, any_key_map_overwrite]
    constructor
    · exact fun h => .inl h
    · rintro (h | rfl)
      · exact h
      · exact hd
  · rw [if_neg hd, List.any_append]
    simp only [List.any_cons, List.any_nil, Bool.or_false, Bool.or_eq_true, beq_iff_eq]
    constructor
    · rintro (h | h)
      exacts [.inl h, .inr h.symm]
    · rintro (h | h)
      exacts [.inl h, .inr h.symm]

theorem updEntry_filepath (hash : String → String → String) (n c : String) (m : Manifest) :
    (updEntry hash n c m).filepath = m.filepath := by
  unfold updEntry; split <;> rfl

theorem updEntry_name (hash : String → String → String) (n c : String) (m : Manifest) :
    (updEntry hash n c m).name = m.name := by
  unfold updEntry; split <;> rfl

theorem updEntry_algo (hash : String → String → String) (n c : String) (m : Manifest) :
    (updEntry hash n c m).algo = m.algo := by
  unfold updEntry; split <;> rfl

theorem tagAlgos_cons (m : Manifest) (ms : List Manifest) :
    tagAlgos (m :: ms) = if isTagM m then m.algo :: tagAlgos ms else tagAlgos ms := by
  simp [tagAlgos, List.filter_cons, apply_ite (List.map (fun m : Manifest => m.algo))]

/-- Recording checksums does not change which manifests are tag-kind nor
their algorithms. -/
theorem tagAlgos_map_updEntry (hash : String → String → String) (n c : String)
    (ms : List Manifest) :
    tagAlgos (ms.map (updEntry hash n c)) = tagAlgos ms := by
  induction ms with
  | nil => rfl
  | cons m t ih =>
    simp only [List.map_cons, tagAlgos_cons, ih]
    have hname : isTagM (updEntry hash n c m) = isTagM m := by
      simp [isTagM, updEntry_name]
    rw [hname, updEntry_algo]

/-- Closed form of the checksum-recording loop when the tag file is
readable: every tag manifest gains the entry, the events are one
checksum per tag algorithm, and there is no abort. -/
theorem addTagChecksums_of_read (fs : FS) (hash : String → String → String) (n c : String)
    (h : fs n = some c) (ms : List Manifest) :
    addTagChecksums fs hash n ms =
      (ms.map (updEntry hash n c), (tagAlgos ms).map (fun a => Event.checksum n a), none) := by
  induction ms with
  | nil => rfl
  | cons m t ih =>
    by_cases hm : isTagM m = true
    · simp only [addTagChecksums, hm, if_true, FileChecksum, h, Option.map_some', ih,
        tagAlgos_cons, List.map_cons, if_pos]
      simp [updEntry, hm]
    · simp only [addTagChecksums, hm, Bool.false_eq_true, if_false, ih, tagAlgos_cons,
        List.map_cons]
      simp [updEntry, hm]

/-- Closed form of the tag-file loop of `Save` when every tag-file write
succeeds: the filesystem gains every tag file, every manifest undergoes
`updFile` once per tag file, the errors are exactly the mkdir failures,
the trace interleaves each write with its checksums, and no abort
happens. -/
theorem saveTags_char (hash : String → String → String) (mkdirOk createOk : String → Bool) :
    ∀ (tfs : List (String × TagFile)) (fs : FS) (ms : List Manifest)
      (errs : List String) (tr : List Event),
      (∀ kv ∈ tfs, createOk kv.2.name = true) →
      saveTags hash mkdirOk createOk tfs fs ms errs tr =
        ⟨tfs.foldl (fun f kv => fsUpdate f kv.2.name (tagFileContent kv.2)) fs,
         tfs.foldl (fun acc kv => acc.map (updFile hash kv.2)) ms,
         errs ++ tfs.flatMap (fun kv =>
           if mkdirOk (dirname kv.2.name) then [] else [mkdirErrMsg kv.2.name]),
         tr ++ tfs.flatMap (fun kv =>
           Event.writeTag kv.2.name :: (tagAlgos ms).map (fun a => Event.checksum kv.2.name a)),
         false⟩ := by
  intro tfs
  induction tfs with
  | nil => intro fs ms errs tr _; simp [saveTags]
  | cons kv rest ih =>
    intro fs ms errs tr h
    have hc : createOk kv.2.name = true := h kv (by simp)
    have hread : (fsUpdate fs kv.2.name (tagFileContent kv.2)) kv.2.name
        = some (tagFileContent kv.2) := fsUpdate_self fs _ _
    simp only [saveTags, hc, if_true]
    rw [addTagChecksums_of_read _ hash _ _ hread ms]
    simp only []
    rw [ih _ _ _ _ (fun g hg => h g (by simp [hg]))]
    rw [tagAlgos_map_updEntry]
    by_cases hmk : mkdirOk (dirname kv.2.name) = true
    · simp [hmk, updFile, List.flatMap_cons, List.append_assoc]
    · simp [hmk, updFile, List.flatMap_cons, List.append_assoc]

/-- Closed form of the manifest-writing loop: every manifest gets a
write event, failures are collected in order, nothing else changes. -/
theorem writeManifests_char (mCreateOk : String → Bool) :
    ∀ (ms : List Manifest) (fs : FS) (errs : List String) (tr : List Event),
      writeManifests mCreateOk ms fs errs tr =
        ⟨ms.foldl (fun f m =>
            if mCreateOk m.filepath then fsUpdate f m.filepath (serializeManifest m) else f) fs,
         errs ++ ms.flatMap (fun m =>
            if mCreateOk m.filepath then [] else [mCreateErrMsg m.filepath]),
         tr ++ ms.map (fun m => Event.writeManifest m.filepath)⟩ := by
  intro ms
  induction ms with
  | nil => intro fs errs tr; simp [writeManifests]
  | cons m rest ih =>
    intro fs errs tr
    simp only [writeManifests]
    rw [ih]
    by_cases hc : mCreateOk m.filepath = true
    · simp [hc, List.flatMap_cons, List.append_assoc]
    · simp [hc, List.flatMap_cons, List.append_assoc]

/-- Folding per-file manifest updates over the manifest list is the same
as applying the cumulative update to each manifest. -/
theorem foldl_map_updFile (hash : String → String → String) :
    ∀ (tfs : List (String × TagFile)) (ms : List Manifest),
      tfs.foldl (fun acc kv => acc.map (updFile hash kv.2)) ms
        = ms.map (saveUpds hash tfs) := by
  intro tfs
  induction tfs with
  | nil =>
    intro ms
    simp only [List.foldl_nil]
    exact ((List.map_congr_left (fun m _ => (rfl : saveUpds hash [] m = m))).trans
      (List.map_id ms)).symm
  | cons kv rest ih =>
    intro ms
    rw [List.foldl_cons, ih, List.map_map]
    rfl

/-- The cumulative save update never changes a manifest's own path. -/
theorem saveUpds_filepath (hash : String → String → String) :
    ∀ (tfs : List (String × TagFile)) (m : Manifest),
      (saveUpds hash tfs m).filepath = m.filepath := by
  intro tfs
  induction tfs with
  | nil => intro m; rfl
  | cons kv rest ih =>
    intro m
    show (saveUpds hash rest (updFile hash kv.2 m)).filepath = m.filepath
    rw [ih, updFile, updEntry_filepath]

/-- Every key the cumulative save update adds to a manifest is the name
of one of the saved tag files. -/
theorem hasKey_saveUpds (hash : String → String → String) :
    ∀ (tfs : List (String × TagFile)) (m : Manifest) (k : String),
      hasKey (saveUpds hash tfs m).Data k = true →
      hasKey m.Data k = true ∨ ∃ kv ∈ tfs, kv.2.name = k := by
  intro tfs
  induction tfs with
  | nil => intro m k h; exact .inl h
  | cons kv rest ih =>
    intro m k h
    have h0 : hasKey (saveUpds hash rest (updFile hash kv.2 m)).Data k = true := h
    rcases ih (updFile hash kv.2 m) k h0 with h1 | ⟨g, hg, he⟩
    · rw [updFile, updEntry] at h1
      by_cases hm : isTagM m = true
      · rw [if_pos hm] at h1
        rcases (hasKey_setEntry_iff _ _ _ _).mp h1 with h2 | h2
        · exact .inl h2
        · exact .inr ⟨kv, by simp, h2.symm⟩
      · rw [if_neg hm] at h1
        exact .inl h1
    · exact .inr ⟨g, by simp [hg], he⟩

/-- C1 (amended): for every bag whose tag-file writes succeed, `Save`
processes the tag files one at a time — writing each file and
immediately recording its checksums under every tag-manifest algorithm —
and only after every tag file has been written and checksummed does it
write the manifests (payload and tag), and no tag-kind manifest records
a checksum of its own file (provided no manifest path is registered as a
tag file or already present among its own entries). -/
theorem save_per_file_then_manifests
    (hash : String → String → String) (mkdirOk createOk mCreateOk : String → Bool)
    (fs : FS) (b : Bag)
    (h1 : ∀ kv ∈ b.tagfiles, createOk kv.2.name = true)
    (h2 : ∀ m ∈ b.Manifests, hasKey m.Data m.filepath = false)
    (h3 : ∀ m ∈ b.Manifests, ∀ kv ∈ b.tagfiles, kv.2.name ≠ m.filepath) :
    (Bag.Save hash mkdirOk createOk mCreateOk fs b).trace =
      b.tagfiles.flatMap (fun kv =>
        Event.writeTag kv.2.name ::
          (tagAlgos b.Manifests).map (fun a => Event.checksum kv.2.name a))
      ++ b.Manifests.map (fun m => Event.writeManifest m.filepath) ∧
    ∀ m' ∈ (Bag.Save hash mkdirOk createOk mCreateOk fs b).Manifests,
      hasKey m'.Data m'.filepath = false := by
  have hst := saveTags_char hash mkdirOk createOk b.tagfiles fs b.Manifests [] [] h1
  have hmsf : b.tagfiles.foldl (fun acc kv => acc.map (updFile hash kv.2)) b.Manifests
      = b.Manifests.map (saveUpds hash b.tagfiles) := foldl_map_updFile hash _ _
  constructor
  · show (Bag.Save hash mkdirOk createOk mCreateOk fs b).trace = _
    unfold Bag.Save
    rw [hst]
    simp only [Bool.false_eq_true, if_false]
    rw [writeManifests_char]
    simp only [List.nil_append]
    rw [hmsf, List.map_map]
    have : b.Manifests.map ((fun m => Event.writeManifest m.filepath) ∘ saveUpds hash b.tagfiles)
        = b.Manifests.map (fun m => Event.writeManifest m.filepath) :=
      List.map_congr_left (fun m _ => by
        simp [Function.comp, saveUpds_filepath])
    rw [this]
  · intro m' hm'
    unfold Bag.Save at hm'
    rw [hst] at hm'
    simp only [Bool.false_eq_true, if_false] at hm'
    rw [hmsf] at hm'
    rcases List.mem_map.mp hm' with ⟨m, hm, rfl⟩
    rw [saveUpds_filepath]
    by_contra hcon
    rw [Bool.not_eq_false] at hcon
    rcases hasKey_saveUpds hash b.tagfiles m m.filepath hcon with hk | ⟨kv, hkv, he⟩
    · rw [h2 m hm] at hk
      exact Bool.false_ne_true hk
    · exact h3 m hm kv hkv he

/-- Witness for `save_per_file_then_manifests` on the two-tag-file bag. -/
theorem save_per_file_then_manifests_witness :
    (Bag.Save dHash allOk allOk allOk emptyFS exBagTwoTags).trace =
      exBagTwoTags.tagfiles.flatMap (fun kv =>
        Event.writeTag kv.2.name ::
          (tagAlgos exBagTwoTags.Manifests).map (fun a => Event.checksum kv.2.name a))
      ++ exBagTwoTags.Manifests.map (fun m => Event.writeManifest m.filepath) ∧
    ∀ m' ∈ (Bag.Save dHash allOk allOk allOk emptyFS exBagTwoTags).Manifests,
      hasKey m'.Data m'.filepath = false :=
  save_per_file_then_manifests dHash allOk allOk allOk emptyFS exBagTwoTags
    (by decide) (by decide) (by decide)

/-- C3 (amended): for every bag whose tag-file writes succeed, `Save`
attempts every tag file and every manifest, does not take the early
checksum-failure return, and collects every directory-creation failure
and every manifest-write failure into the returned error list. -/
theorem save_collects_errors_when_writes_succeed
    (hash : String → String → String) (mkdirOk createOk mCreateOk : String → Bool)
    (fs : FS) (b : Bag)
    (h1 : ∀ kv ∈ b.tagfiles, createOk kv.2.name = true) :
    (Bag.Save hash mkdirOk createOk mCreateOk fs b).aborted = false ∧
    (∀ kv ∈ b.tagfiles,
      Event.writeTag kv.2.name ∈ (Bag.Save hash mkdirOk createOk mCreateOk fs b).trace) ∧
    (∀ m ∈ b.Manifests,
      Event.writeManifest m.filepath ∈ (Bag.Save hash mkdirOk createOk mCreateOk fs b).trace) ∧
    (∀ kv ∈ b.tagfiles, mkdirOk (dirname kv.2.name) = false →
      mkdirErrMsg kv.2.name ∈ (Bag.Save hash mkdirOk createOk mCreateOk fs b).errs) ∧
    (∀ m ∈ b.Manifests, mCreateOk m.filepath = false →
      mCreateErrMsg m.filepath ∈ (Bag.Save hash mkdirOk createOk mCreateOk fs b).errs) := by
  have hst := saveTags_char hash mkdirOk createOk b.tagfiles fs b.Manifests [] [] h1
  have hmsf : b.tagfiles.foldl (fun acc kv => acc.map (updFile hash kv.2)) b.Manifests
      = b.Manifests.map (saveUpds hash b.tagfiles) := foldl_map_updFile hash _ _
  unfold Bag.Save
  rw [hst]
  simp only [Bool.false_eq_true, if_false]
  rw [writeManifests_char]
  simp only [List.nil_append]
  refine ⟨trivial, ?_, ?_, ?_, ?_⟩
  · intro kv hkv
    apply List.mem_append_left
    exact List.mem_flatMap.mpr ⟨kv, hkv, by simp⟩
  · intro m hm
    apply List.mem_append_right
    rw [hmsf, List.map_map]
    exact List.mem_map.mpr ⟨m, hm, by simp [Function.comp, saveUpds_filepath]⟩
  · intro kv hkv hfail
    apply List.mem_append_left
    exact List.mem_flatMap.mpr ⟨kv, hkv, by simp [hfail]⟩
  · intro m hm hfail
    apply List.mem_append_right
    rw [hmsf]
    refine List.mem_flatMap.mpr ⟨saveUpds hash b.tagfiles m, List.mem_map_of_mem _ hm, ?_⟩
    rw [saveUpds_filepath, hfail]
    simp

/-- Witness for `save_collects_errors_when_writes_succeed`: a bag whose
tag-file directory creation and manifest writes all fail. -/
theorem save_collects_errors_witness :
    (Bag.Save dHash (fun _ => false) allOk (fun _ => false) emptyFS exBagTwoTags).aborted
        = false ∧
    (∀ kv ∈ exBagTwoTags.tagfiles,
      Event.writeTag kv.2.name
        ∈ (Bag.Save dHash (fun _ => false) allOk (fun _ => false) emptyFS exBagTwoTags).trace) ∧
    (∀ m ∈ exBagTwoTags.Manifests,
      Event.writeManifest m.filepath
        ∈ (Bag.Save dHash (fun _ => false) allOk (fun _ => false) emptyFS exBagTwoTags).trace) ∧
    (∀ kv ∈ exBagTwoTags.tagfiles, (fun _ : String => false) (dirname kv.2.name) = false →
      mkdirErrMsg kv.2.name
        ∈ (Bag.Save dHash (fun _ => false) allOk (fun _ => false) emptyFS exBagTwoTags).errs) ∧
    (∀ m ∈ exBagTwoTags.Manifests, (fun _ : String => false) m.filepath = false →
      mCreateErrMsg m.filepath
        ∈ (Bag.Save dHash (fun _ => false) allOk (fun _ => false) emptyFS exBagTwoTags).errs) :=
  save_collects_errors_when_writes_succeed dHash (fun _ => false) allOk (fun _ => false)
    emptyFS exBagTwoTags (by decide)

end Bagins
